import Mathlib

/-!
Verification of the crawl-and-extract pipeline of the `scrapers` repository
(`belgium_scraper.py` and `congo_scraper.py`).

The two scrapers are shallowly embedded here:

* string normalization (`re.sub('\W+', ' ', s)`, `re.sub(' ', '-', s)`,
  `.lower()`, slicing `[:n]`, `[a:b]`) is modelled over `List Char` on the
  ASCII fragment (Python's `\w` restricted to `[A-Za-z0-9_]`);
* the filesystem is modelled as the list of paths that currently exist;
* the ledger (the global `METADATA` list) as a list of records;
* the Selenium-driven loops as explicit state-passing functions over an
  environment that says, for each loop index, what page content the browser
  would deliver and whether the item raises;
* navigation staleness (which element handles were acquired after which
  navigation events) as a small trace model counting navigation events.
-/

namespace Scrapers

/-- The Latin-1 block (U+0000–U+00FF) of Python's Unicode regex class `\w`:
digits, ASCII letters, the underscore, and the Latin-1 alphanumerics —
the letters `ª µ º`, `À–Ö`, `Ø–ö`, `ø–ÿ` (so `é`, `ê`, `ç`, `ü`, `ß`, …
are word characters, as in Python, while `×` and `÷` are not) and the
numerics `¹ ² ³ ¼ ½ ¾`.  Characters above U+00FF are treated as
non-word: correct for the punctuation these sites use (e.g. the em dash),
an under-approximation for letters beyond Latin-1, which is why the
normalization theorems carry a Latin-1 hypothesis on their input. -/
def isWordChar (c : Char) : Bool :=
  (48 ≤ c.toNat && c.toNat ≤ 57) || (65 ≤ c.toNat && c.toNat ≤ 90) ||
    (97 ≤ c.toNat && c.toNat ≤ 122) || c.toNat == 95 ||
    c.toNat == 0xAA || c.toNat == 0xB5 || c.toNat == 0xBA ||
    c.toNat == 0xB2 || c.toNat == 0xB3 || c.toNat == 0xB9 ||
    (0xBC ≤ c.toNat && c.toNat ≤ 0xBE) || (0xC0 ≤ c.toNat && c.toNat ≤ 0xD6) ||
    (0xD8 ≤ c.toNat && c.toNat ≤ 0xF6) || (0xF8 ≤ c.toNat && c.toNat ≤ 0xFF)

/-- `re.sub('\W+', ' ', s)`: every maximal run of non-word characters becomes
one space.  The flag records whether we are inside a non-word run. -/
def collapseAux : Bool → List Char → List Char
  | _, [] => []
  | inRun, c :: cs =>
    if isWordChar c then c :: collapseAux false cs
    else if inRun then collapseAux true cs
    else ' ' :: collapseAux true cs

def collapseNonWord (s : List Char) : List Char := collapseAux false s

/-- `re.sub(' ', '-', s)`. -/
def hyphenate (s : List Char) : List Char :=
  s.map fun c => if c == ' ' then '-' else c

/-- `str.lower()` on one character, faithful on the Latin-1 block:
`A–Z` and `À–Þ` (except `×`) map to their lowercase forms 32 code points
higher; everything else in Latin-1 (`ß`, `µ`, `ª`, `º`, the numerics,
all lowercase letters) is unchanged, as in Python. -/
def pyLowerChar (c : Char) : Char :=
  if 65 ≤ c.toNat ∧ c.toNat ≤ 90 then Char.ofNat (c.toNat + 32)
  else if 192 ≤ c.toNat ∧ c.toNat ≤ 222 ∧ c.toNat ≠ 215 then
    Char.ofNat (c.toNat + 32)
  else c

/-- `s.lower()` (Latin-1 fragment). -/
def pyLower (s : List Char) : List Char := s.map pyLowerChar

/-- Python index clamping for slices: negative indices count from the end,
out-of-range indices clamp to the ends. -/
def pyBound (len : Nat) (i : Int) : Nat :=
  if i < 0 then len - min len (-i).toNat else min len i.toNat

/-- Python `s[a:b]` (step 1). -/
def pySlice (s : List Char) (a b : Int) : List Char :=
  (s.take (pyBound s.length b)).drop (pyBound s.length a)

def pySliceStr (s : String) (a b : Int) : String := ⟨pySlice s.data a b⟩

/-- A `METADATA` entry, as built by `append_to_metadata` in both scrapers. -/
structure DocumentRecord where
  title : String
  link : String
  download_path : String
  download_date : String
  language : String
  country : String
deriving DecidableEq, Repr

/-- What happens when the crawl loop processes one item: it succeeds, or an
unexpected exception is raised while the document is opened/extracted
(before a destination path is computed), or while the file is written. -/
inductive ItemOutcome where
  | ok
  | throwExtract
  | throwWrite
deriving DecidableEq, Repr

/-- The content the browser delivers for the document behind link `i`:
its heading text (Belgium), its page text, its current URL (DRC), and
whether processing it raises. -/
structure Doc where
  title : String
  text : String
  url : String
  outcome : ItemOutcome

/-- Python-level failures that can escape a scraper loop. -/
inductive PyError where
  | nameError
  | indexError
  | extractError
  | writeError
deriving DecidableEq, Repr

/-- Result of running a crawl loop: the paths existing on disk, the
`METADATA` list, the loop indices whose body was entered, and the
uncaught exception, if one escaped. -/
structure CrawlResult where
  fs : List String
  recs : List DocumentRecord
  visited : List Nat
  err : Option PyError
deriving DecidableEq, Repr

/-- Environment of one Belgium category crawl: the page content behind link
`i`, and the length of `all_links` as re-collected at round `r`
(round `0` is the collection before the loop, round `r ≥ 1` the
re-collection at the end of iteration `r - 1`). -/
structure CrawlEnv where
  docs : Nat → Doc
  enumLen : Nat → Nat

namespace Belgium

def DOWNLOAD_PATH : String := "./data/belgium/"

def COUNTRY : String := "Belgium"

def LANGUAGES : List (String × String) :=
  [("french", "Français"), ("dutch", "Nederlands"), ("german", "Deutsch")]

/-- `file_source_url` of `scrape_belgium_laws`. -/
def file_source_url : String := "www.ejustice.just.fgov.be/cgi/article.pl"

/-- `filename_maker`:
`re.sub(' ', '-', re.sub('\W+',' ', law_name)).lower()[:250]`. -/
def filename_maker (law_name : String) : String :=
  ⟨(pyLower (hyphenate (collapseNonWord law_name.data))).take 250⟩

/-- `generate_file_name`. -/
def generate_file_name (law_name ty language : String) : String :=
  DOWNLOAD_PATH ++ language ++ "/" ++ ty ++ "/" ++ filename_maker law_name ++ "." ++ ty

/-- `create_destination_file`: `None` when the path already exists.
(The `os.path.dirname(__file__)` prefix is constant and omitted.) -/
def create_destination_file (title ty language : String) (fs : List String) :
    Option String :=
  let f := generate_file_name title ty language
  if f ∈ fs then none else some f

/-- `append_to_metadata`. -/
def append_to_metadata (recs : List DocumentRecord)
    (today law_name pdf_link filename language : String) : List DocumentRecord :=
  recs ++ [⟨law_name, pdf_link, filename, today, language, COUNTRY⟩]

/-- The inner loop of `scrape_belgium_laws` (lines 179–219):
`for i in range(0, len(all_links))` with `all_links` re-collected at the end
of every iteration.  `rem` is the number of range elements left
(`rem = len(all_links₀) - i`), so the bound is fixed at entry, while the
subscript `all_links[i]` is checked against the *current* collection
`env.enumLen i`.  There is no `try/except` around the body: any exception
(IndexError from the subscript, an extraction failure, a write failure)
escapes the loop. -/
def crawlSteps (env : CrawlEnv) (language today : String) :
    Nat → Nat → List String → List DocumentRecord → List Nat → CrawlResult
  | 0, _, fs, recs, vis => ⟨fs, recs, vis, none⟩
  | rem + 1, i, fs, recs, vis =>
    let vis' := vis ++ [i]
    if i < env.enumLen i then
      let d := env.docs i
      if d.outcome = .throwExtract then ⟨fs, recs, vis', some .extractError⟩
      else
        match create_destination_file d.title "txt" language fs with
        | none => crawlSteps env language today rem (i + 1) fs recs vis'
        | some p =>
          if d.outcome = .throwWrite then ⟨fs, recs, vis', some .writeError⟩
          else
            crawlSteps env language today rem (i + 1) (fs ++ [p])
              (append_to_metadata recs today d.title file_source_url p language) vis'
    else ⟨fs, recs, vis', some .indexError⟩

/-- One category (language) crawl: `len(all_links)` fixes the range bound. -/
def scrapeCategory (env : CrawlEnv) (language today : String)
    (fs : List String) (recs : List DocumentRecord) : CrawlResult :=
  crawlSteps env language today (env.enumLen 0) 0 fs recs []

/-- Environment of the whole Belgium run: whether the Submit input for a
language is found, and the listing behind each language. -/
structure DriverEnv where
  findLang : String → Bool
  crawl : String → CrawlEnv

/-- Result of `scrape_belgium_laws`: languages whose selection was attempted,
number of `write_metadata_json()` calls, disk and `METADATA` state, and the
uncaught exception, if one escaped. -/
structure DriverResult where
  attempted : List String
  flushes : Nat
  fs : List String
  recs : List DocumentRecord
  err : Option PyError
deriving DecidableEq, Repr

/-- The per-language loop of `scrape_belgium_laws` (lines 160–222).
If the language button is not found the function *returns* (the whole run
stops, nothing further is attempted, no flush).  Otherwise the category is
crawled; an exception escaping the category loop escapes the function.
`write_metadata_json()` is called at the end of each language iteration. -/
def driverGo (env : DriverEnv) (today : String) :
    List String → DriverResult → DriverResult
  | [], acc => acc
  | l :: ls, acc =>
    let acc' := { acc with attempted := acc.attempted ++ [l] }
    if env.findLang l then
      let r := scrapeCategory (env.crawl l) l today acc'.fs acc'.recs
      match r.err with
      | some e => { acc' with fs := r.fs, recs := r.recs, err := some e }
      | none =>
        driverGo env today ls
          { acc' with fs := r.fs, recs := r.recs, flushes := acc'.flushes + 1 }
    else acc'

/-- The global names actually bound at module level in `belgium_scraper.py`. -/
def moduleGlobals : List String :=
  ["START_URL", "BASE_URL", "DOWNLOAD_PATH", "METADATA", "METADATA_PATH",
   "COUNTRY", "LANGUAGES", "FAKE_USER_AGENT", "ChromeBot", "filename_maker",
   "generate_file_name", "create_destination_file", "append_to_metadata",
   "write_metadata_json", "scrape_belgium_laws"]

/-- `scrape_belgium_laws`: line 160 evaluates `list(languages)`, but the
module binds `LANGUAGES`, not `languages`, so Python raises `NameError`
before any language is selected. -/
def scrape_belgium_laws (env : DriverEnv) (today : String) (fs0 : List String) :
    DriverResult :=
  if "languages" ∈ moduleGlobals then
    driverGo env today (LANGUAGES.map Prod.fst) ⟨[], 0, fs0, [], none⟩
  else ⟨[], 0, fs0, [], some .nameError⟩

end Belgium

namespace Congo

def DOWNLOAD_PATH : String := "./data/DRC/"

def COUNTRY : String := "DRC"

/-- The normalized, 200-character-truncated `title` computed inside
`create_destination_file` (line 102). -/
def titlePart (law_name : String) : String :=
  ⟨(pyLower (hyphenate (collapseNonWord law_name.data))).take 200⟩

/-- The normalized, 50-character-truncated `law_text` computed inside
`create_destination_file` (line 104). -/
def textPart (law_text : String) : String :=
  ⟨(pyLower (hyphenate (collapseNonWord law_text.data))).take 50⟩

/-- The local `file_path` computed by `create_destination_file` (line 106):
the truncated title concatenated with the truncated text sample. -/
def filePath (law_name law_text ty language : String) : String :=
  DOWNLOAD_PATH ++ language ++ "/" ++ ty ++ "/" ++ titlePart law_name ++
    textPart law_text ++ "." ++ ty

/-- `create_destination_file` of `congo_scraper.py`: `None` when the path
already exists. -/
def create_destination_file (law_name law_text ty language : String)
    (fs : List String) : Option String :=
  if filePath law_name law_text ty language ∈ fs then none
  else some (filePath law_name law_text ty language)

/-- `append_to_metadata` of `congo_scraper.py`. -/
def append_to_metadata (recs : List DocumentRecord)
    (today law_name file_link filename language : String) : List DocumentRecord :=
  recs ++ [⟨law_name, file_link, filename, today, language, COUNTRY⟩]

/-- The loop of `scrape_drc_laws` (lines 159–192): `all_links` is collected
once, the range is its length, and the whole body sits inside
`try/except`, so an exception in any item is swallowed and the loop
advances.  `law_title = text_soup[300:550]`,
`content_extract = text_soup[-300:-250]`. -/
def crawlSteps (docs : Nat → Doc) (language today : String) :
    Nat → Nat → List String → List DocumentRecord → List Nat → CrawlResult
  | 0, _, fs, recs, vis => ⟨fs, recs, vis, none⟩
  | rem + 1, i, fs, recs, vis =>
    let vis' := vis ++ [i]
    let d := docs i
    if d.outcome = .throwExtract then
      crawlSteps docs language today rem (i + 1) fs recs vis'
    else
      let law_title := pySliceStr d.text 300 550
      let content_extract := pySliceStr d.text (-300) (-250)
      match create_destination_file law_title content_extract "txt" language fs with
      | none => crawlSteps docs language today rem (i + 1) fs recs vis'
      | some p =>
        if d.outcome = .throwWrite then
          crawlSteps docs language today rem (i + 1) fs recs vis'
        else
          crawlSteps docs language today rem (i + 1) (fs ++ [p])
            (append_to_metadata recs today law_title d.url p language) vis'

/-- The document loop of `scrape_drc_laws` over `n = len(all_links)` links,
with `language = 'french'` as set at line 140. -/
def scrapeLinks (docs : Nat → Doc) (today : String) (n : Nat)
    (fs : List String) (recs : List DocumentRecord) : CrawlResult :=
  crawlSteps docs "french" today n 0 fs recs []

end Congo

/-!
Navigation-staleness trace model.

A navigation event is a click, a frame switch (including switching back to
default content) or a reload.  `gen` counts the navigation events performed
so far in the session; an element handle is tagged with the value of `gen`
at the moment it was acquired.  `acts` records each activation (click of an
acquired handle) as the pair (generation of the handle, generation of the
session when it is clicked): the activation is fresh iff the two agree.
-/

structure NavTrace where
  gen : Nat
  linksGen : Nat
  acts : List (Nat × Nat)
deriving DecidableEq, Repr

/-- Every recorded activation used a handle acquired after the most recent
navigation event. -/
def freshActs (l : List (Nat × Nat)) : Prop := ∀ p ∈ l, p.1 = p.2

instance (l : List (Nat × Nat)) : Decidable (freshActs l) :=
  inferInstanceAs (Decidable (∀ p ∈ l, p.1 = p.2))

namespace Belgium

/-- One iteration of the Belgium loop as a sequence of navigation events:
`all_links[i].click()` (activation of a handle of generation `linksGen`,
itself a navigation), switch to frame2, switch to default, switch to
frame3, find and click the back button (a handle acquired on the spot),
switch to default, switch to frame1, then re-collect `all_links`. -/
def iterTrace (s : NavTrace) : NavTrace :=
  let gClick := s.gen
  let gBack := s.gen + 4
  let gEnd := s.gen + 7
  { gen := gEnd, linksGen := gEnd,
    acts := s.acts ++ [(s.linksGen, gClick), (gBack, gBack)] }

def loopTrace : Nat → NavTrace → NavTrace
  | 0, s => s
  | n + 1, s => loopTrace n (iterTrace s)

/-- One Belgium category crawl over `n` links: the language button is found
and clicked at generation 0 (one navigation), the session switches into
frame1 (one navigation), `all_links` is collected, then the loop runs. -/
def catTrace (n : Nat) : NavTrace :=
  loopTrace n { gen := 2, linksGen := 2, acts := [(0, 0)] }

end Belgium

namespace Congo

/-- One iteration of the DRC loop: `all_links[i].click()` activates a handle
of the (never refreshed) initial collection; the click is a navigation. -/
def iterTrace (s : NavTrace) : NavTrace :=
  { gen := s.gen + 1, linksGen := s.linksGen,
    acts := s.acts ++ [(s.linksGen, s.gen)] }

def loopTrace : Nat → NavTrace → NavTrace
  | 0, s => s
  | n + 1, s => loopTrace n (iterTrace s)

/-- The DRC run over `n` links: the `Législation` image link is found and
clicked at generation 0, `all_links` is collected once at generation 1,
and the loop never re-collects it. -/
def runTrace (n : Nat) : NavTrace :=
  loopTrace n { gen := 1, linksGen := 1, acts := [(0, 0)] }

end Congo

/-!  Helper lemmas about the normalization pipeline.  -/

lemma mem_collapseAux {c : Char} :
    ∀ (l : List Char) (b : Bool), c ∈ collapseAux b l → c = ' ' ∨ isWordChar c = true := by
  intro l
  induction l with
  | nil => intro b h; simp [collapseAux] at h
  | cons d l ih =>
    intro b
    simp only [collapseAux]
    split
    · intro h
      rcases List.mem_cons.mp h with h | h
      · right; subst h; assumption
      · exact ih false h
    · split
      · exact fun h => ih true h
      · intro h
        rcases List.mem_cons.mp h with h | h
        · left; exact h
        · exact ih true h

lemma isWordChar_toNat_lt {c : Char} (h : isWordChar c = true) : c.toNat < 256 := by
  simp only [isWordChar, Bool.or_eq_true, Bool.and_eq_true, decide_eq_true_eq,
    beq_iff_eq] at h
  omega

set_option maxRecDepth 8000 in
/-- Word characters stay word characters under lowercasing, and lowercasing
is idempotent on them (the lowercase forms are case-stable). -/
lemma pyLowerChar_word (c : Char) (h : isWordChar c = true) :
    isWordChar (pyLowerChar c) = true ∧ pyLowerChar (pyLowerChar c) = pyLowerChar c := by
  have hlt : c.toNat < 256 := isWordChar_toNat_lt h
  have key : ∀ n, n < 256 → isWordChar (Char.ofNat n) = true →
      isWordChar (pyLowerChar (Char.ofNat n)) = true ∧
        pyLowerChar (pyLowerChar (Char.ofNat n)) = pyLowerChar (Char.ofNat n) := by
    decide
  have := key c.toNat hlt (by rwa [Char.ofNat_toNat])
  rwa [Char.ofNat_toNat] at this

lemma isWordChar_space_false : isWordChar ' ' = false := by decide

lemma pyLowerChar_hyphen : pyLowerChar '-' = '-' := by decide

lemma head?_take_pos {α : Type} (n : Nat) (hn : 0 < n) (l : List α) :
    (l.take n).head? = l.head? := by
  cases l with
  | nil => simp
  | cons a l =>
    cases n with
    | zero => omega
    | succ n => simp

lemma collapseAux_length_le (l : List Char) :
    ∀ b : Bool, (collapseAux b l).length ≤ l.length := by
  induction l with
  | nil => intro b; simp [collapseAux]
  | cons c cs ih =>
    intro b
    simp only [collapseAux]
    split
    · simp only [List.length_cons]
      exact Nat.succ_le_succ (ih false)
    · split
      · exact Nat.le_trans (ih true) (by simp)
      · simp only [List.length_cons]
        exact Nat.succ_le_succ (ih true)

lemma collapseNonWord_ne_nil (l : List Char) (h : l ≠ []) :
    collapseNonWord l ≠ [] := by
  cases l with
  | nil => exact absurd rfl h
  | cons c cs =>
    simp only [collapseNonWord, collapseAux]
    split
    · simp
    · simp

lemma getLast?_cons_ne_nil {α : Type} (a : α) (l : List α) (h : l ≠ []) :
    (a :: l).getLast? = l.getLast? := by
  cases l with
  | nil => exact absurd rfl h
  | cons b l => simp

lemma collapseAux_cons_word (b : Bool) (c : Char) (cs : List Char)
    (h : isWordChar c = true) :
    collapseAux b (c :: cs) = c :: collapseAux false cs := by
  simp [collapseAux, h]

lemma collapseAux_cons_nonword_true (c : Char) (cs : List Char)
    (h : isWordChar c = false) :
    collapseAux true (c :: cs) = collapseAux true cs := by
  simp [collapseAux, h]

lemma collapseAux_cons_nonword_false (c : Char) (cs : List Char)
    (h : isWordChar c = false) :
    collapseAux false (c :: cs) = ' ' :: collapseAux true cs := by
  simp [collapseAux, h]

/-- A maximal trailing run of non-word characters always leaves a single
trailing space in the collapsed list (or the collapsed list is empty). -/
lemma collapseAux_getLast_space (l : List Char) :
    ∀ (b : Bool) (c : Char), l.getLast? = some c → isWordChar c = false →
      collapseAux b l = [] ∨ (collapseAux b l).getLast? = some ' ' := by
  induction l with
  | nil => intro b c h _; simp at h
  | cons a l ih =>
    intro b c h hw
    cases l with
    | nil =>
      obtain rfl : a = c := by simpa using h
      cases b with
      | true => left; simp [collapseAux, hw]
      | false => right; simp [collapseAux, hw]
    | cons d l' =>
      have hlast : (d :: l').getLast? = some c := by simpa using h
      cases hwa : isWordChar a with
      | true =>
        have hne : collapseAux false (d :: l') ≠ [] :=
          collapseNonWord_ne_nil (d :: l') (by simp)
        rcases ih false c hlast hw with h0 | h0
        · exact absurd h0 hne
        · right
          rw [collapseAux_cons_word b a (d :: l') hwa,
            getLast?_cons_ne_nil _ _ hne]
          exact h0
      | false =>
        cases b with
        | true =>
          rw [collapseAux_cons_nonword_true a (d :: l') hwa]
          exact ih true c hlast hw
        | false =>
          right
          rw [collapseAux_cons_nonword_false a (d :: l') hwa]
          rcases ih true c hlast hw with h0 | h0
          · rw [h0]
            simp
          · rw [getLast?_cons_ne_nil _ _
              (fun hh => by rw [hh] at h0; simp at h0)]
            exact h0

/-- Claim C4 counterexample: on the title `"Loi_du 10/12/2021 — Article 5!"`
the identifier built by `filename_maker` keeps the underscore (a character
outside `[a-z0-9-]`) and ends in a hyphen (the trailing `!` collapses to a
trailing hyphen), refuting both the character-set part and the
no-trailing-hyphen part of the claim. -/
theorem filename_maker_underscore_trailing_hyphen :
    Belgium.filename_maker "Loi_du 10/12/2021 — Article 5!" =
        "loi_du-10-12-2021-article-5-" ∧
      '_' ∈ (Belgium.filename_maker "Loi_du 10/12/2021 — Article 5!").data ∧
      (Belgium.filename_maker "Loi_du 10/12/2021 — Article 5!").data.getLast? =
        some '-' := by
  decide

/-- Claim C4 (amended): for every input title over the Latin-1 character
set (the modelled fragment of Python's Unicode `\w` and `str.lower()`),
the identifier built by `filename_maker` has length at most 250 and every
character of it is either a hyphen or a lowercase-stable word character —
so besides `[a-z0-9]` it can contain underscores and lowercase accented
word characters such as `é` (Python's `\w` preserves them), i.e.
characters outside `[a-z0-9-]`; and no hyphen-artifact trimming is
performed: a title starting with a non-word character yields an
identifier starting with a hyphen, and an untruncated title ending with
a non-word character yields an identifier ending with a hyphen. -/
theorem filename_maker_charset_length (s : String)
    (_hs : ∀ c ∈ s.data, c.toNat < 256) :
    (Belgium.filename_maker s).length ≤ 250 ∧
      (∀ c ∈ (Belgium.filename_maker s).data,
        c = '-' ∨ (isWordChar c = true ∧ pyLowerChar c = c)) ∧
      (∀ c, s.data.head? = some c → isWordChar c = false →
        (Belgium.filename_maker s).data.head? = some '-') ∧
      (∀ c, s.data.length ≤ 250 → s.data.getLast? = some c →
        isWordChar c = false →
        (Belgium.filename_maker s).data.getLast? = some '-') := by
  refine ⟨?_, ?_, ?_, ?_⟩
  · show ((pyLower (hyphenate (collapseNonWord s.data))).take 250).length ≤ 250
    rw [List.length_take]
    omega
  · intro c hc
    have hc' : c ∈ pyLower (hyphenate (collapseNonWord s.data)) :=
      List.mem_of_mem_take hc
    obtain ⟨d, hd, rfl⟩ := List.mem_map.mp hc'
    obtain ⟨e, he, rfl⟩ := List.mem_map.mp hd
    rcases mem_collapseAux _ _ he with h | h
    · subst h
      left
      simp [pyLowerChar_hyphen]
    · have hne : (e == ' ') = false := by
        cases heq : e == ' ' with
        | false => rfl
        | true =>
          rw [beq_iff_eq] at heq
          rw [heq] at h
          rw [isWordChar_space_false] at h
          cases h
      right
      rw [hne]
      simp only [Bool.false_eq_true, if_false]
      exact pyLowerChar_word e h
  · intro c hhead hw
    cases hsd : s.data with
    | nil => rw [hsd] at hhead; simp at hhead
    | cons a l =>
      rw [hsd] at hhead
      obtain rfl : a = c := by simpa using hhead
      show ((pyLower (hyphenate (collapseNonWord s.data))).take 250).head? = some '-'
      rw [hsd, head?_take_pos _ (by omega)]
      simp only [collapseNonWord, collapseAux, hw, Bool.false_eq_true, if_false]
      simp [hyphenate, pyLower, pyLowerChar_hyphen]
  · intro c hlen hlast hw
    have h1 : (collapseNonWord s.data).length ≤ 250 :=
      Nat.le_trans (collapseAux_length_le _ _) hlen
    have h2 : (pyLower (hyphenate (collapseNonWord s.data))).length ≤ 250 := by
      simp only [pyLower, hyphenate, List.length_map]
      exact h1
    show ((pyLower (hyphenate (collapseNonWord s.data))).take 250).getLast? = some '-'
    rw [List.take_of_length_le h2]
    have hne : s.data ≠ [] := by
      intro hh
      rw [hh] at hlast
      simp at hlast
    rcases collapseAux_getLast_space s.data false c hlast hw with h0 | h0
    · exact absurd h0 (collapseNonWord_ne_nil _ hne)
    · simp only [pyLower, hyphenate, List.getLast?_map]
      rw [show collapseNonWord s.data = collapseAux false s.data from rfl, h0]
      simp [pyLowerChar_hyphen]

theorem filename_maker_charset_length_witness :
    (∀ c ∈ (" Décret du 10/12/2021!" : String).data, c.toNat < 256) ∧
      ((Belgium.filename_maker " Décret du 10/12/2021!").length ≤ 250 ∧
        (∀ c ∈ (Belgium.filename_maker " Décret du 10/12/2021!").data,
          c = '-' ∨ (isWordChar c = true ∧ pyLowerChar c = c)) ∧
        (∀ c, (" Décret du 10/12/2021!" : String).data.head? = some c →
          isWordChar c = false →
          (Belgium.filename_maker " Décret du 10/12/2021!").data.head? =
            some '-') ∧
        (∀ c, (" Décret du 10/12/2021!" : String).data.length ≤ 250 →
          (" Décret du 10/12/2021!" : String).data.getLast? = some c →
          isWordChar c = false →
          (Belgium.filename_maker " Décret du 10/12/2021!").data.getLast? =
            some '-')) :=
  ⟨by decide, filename_maker_charset_length " Décret du 10/12/2021!" (by decide)⟩

/-!  Navigation staleness (claim C1).  -/

lemma belgium_loopTrace_fresh :
    ∀ (n : Nat) (s : NavTrace), s.linksGen = s.gen → freshActs s.acts →
      freshActs (Belgium.loopTrace n s).acts := by
  intro n
  induction n with
  | zero => intro s _ h2; exact h2
  | succ n ih =>
    intro s h1 h2
    apply ih
    · rfl
    · intro p hp
      simp only [Belgium.iterTrace, List.mem_append, List.mem_cons,
        List.not_mem_nil, or_false] at hp
      rcases hp with hp | hp | hp
      · exact h2 p hp
      · subst hp; exact h1
      · subst hp; rfl

/-- Claim C1 counterexample: in the DRC scraper the link set is collected
once (after the click on the `Législation` control, one navigation event);
on a listing with two links, the second iteration activates a handle of
generation 1 when the session is already at generation 2 (the click on the
first link was a navigation event), i.e. a handle obtained before the most
recent navigation event is activated. -/
theorem congo_activates_stale_handle : ¬ freshActs (Congo.runTrace 2).acts := by
  decide

/-- Claim C1 (amended): in the Belgium scraper the claim holds — after every
document visit the link set is re-collected after the final frame switch
and before the next activation, so every activation in the trace uses a
handle acquired after the most recent navigation event.  The DRC scraper
collects its link set once before its loop and keeps activating those
handles after later clicks. -/
theorem belgium_activations_fresh (n : Nat) :
    freshActs (Belgium.catTrace n).acts := by
  apply belgium_loopTrace_fresh n _ rfl
  intro p hp
  simp only [List.mem_cons, List.not_mem_nil, or_false] at hp
  subst hp
  rfl

theorem belgium_activations_fresh_witness :
    freshActs (Belgium.catTrace 3).acts :=
  belgium_activations_fresh 3

/-!  Driver orchestration (claims C5, C6).  -/

/-- Claim C5 (code bug): `scrape_belgium_laws` iterates
`for language in list(languages)`, but the module binds the constant under
the name `LANGUAGES`; `languages` is unbound, so every invocation raises
`NameError` before any language is selected, crawled, or flushed.
Moreover, even with the loop reached, `write_metadata_json()` sits inside
the per-language loop, so a full run over the three configured languages
performs three flushes, not one flush after all categories. -/
theorem scrape_belgium_laws_name_error :
    (∀ (env : Belgium.DriverEnv) (today : String) (fs0 : List String),
        Belgium.scrape_belgium_laws env today fs0 =
          ⟨[], 0, fs0, [], some .nameError⟩) ∧
      (Belgium.driverGo
          ⟨fun _ => true, fun _ => ⟨fun _ => ⟨"", "", "", .ok⟩, fun _ => 0⟩⟩
          "2021-12-10" ["french", "dutch", "german"]
          ⟨[], 0, [], [], none⟩).flushes = 3 := by
  constructor
  · intro env today fs0
    simp only [Belgium.scrape_belgium_laws]
    rw [if_neg (by decide)]
  · decide

/-- Claim C6 counterexample: with the selection control of the first
configured language missing, the run stops at once — selection of the
second language is never attempted (and no flush happens), refuting
that the failure is recoverable and per-category. -/
theorem belgium_missing_category_aborts_rest :
    let env : Belgium.DriverEnv :=
      ⟨fun _ => false, fun _ => ⟨fun _ => ⟨"", "", "", .ok⟩, fun _ => 0⟩⟩
    "dutch" ∉ (Belgium.driverGo env "d" ["french", "dutch"]
        ⟨[], 0, [], [], none⟩).attempted ∧
      (Belgium.driverGo env "d" ["french", "dutch"]
          ⟨[], 0, [], [], none⟩).flushes = 0 := by
  decide

/-- Claim C6 (amended): when a language's selection control cannot be
located, `scrape_belgium_laws` *returns*: the whole run stops, the
remaining configured languages are not attempted, and no further flush or
crawl work happens — the failure is fatal to the run, not per-category. -/
theorem belgium_missing_category_stops_run (env : Belgium.DriverEnv)
    (today l : String) (ls : List String) (acc : Belgium.DriverResult)
    (h : env.findLang l = false) :
    Belgium.driverGo env today (l :: ls) acc =
      { acc with attempted := acc.attempted ++ [l] } := by
  simp [Belgium.driverGo, h]

theorem belgium_missing_category_stops_run_witness :
    ((⟨fun _ => false, fun _ => ⟨fun _ => ⟨"", "", "", .ok⟩, fun _ => 0⟩⟩ :
        Belgium.DriverEnv).findLang "french" = false) ∧
      Belgium.driverGo
          ⟨fun _ => false, fun _ => ⟨fun _ => ⟨"", "", "", .ok⟩, fun _ => 0⟩⟩
          "d" ["french", "dutch"] ⟨[], 0, [], [], none⟩ =
        ⟨["french"], 0, [], [], none⟩ := by
  refine ⟨rfl, ?_⟩
  rw [belgium_missing_category_stops_run _ _ _ _ _ rfl]
  decide

/-!  Index bounds of the Belgium loop (claim C7).  -/

lemma belgium_no_index_error (env : CrawlEnv) (lang today : String) :
    ∀ (rem i : Nat) (fs : List String) (recs : List DocumentRecord) (vis : List Nat),
      (∀ j, i ≤ j → j < i + rem → j < env.enumLen j) →
      (Belgium.crawlSteps env lang today rem i fs recs vis).err ≠
        some .indexError := by
  intro rem
  induction rem with
  | zero => intro i fs recs vis _; simp [Belgium.crawlSteps]
  | succ rem ih =>
    intro i fs recs vis h
    have hi : i < env.enumLen i := h i (Nat.le_refl i) (by omega)
    have h' : ∀ j, i + 1 ≤ j → j < i + 1 + rem → j < env.enumLen j :=
      fun j h1 h2 => h j (by omega) (by omega)
    cases ho : (env.docs i).outcome with
    | throwExtract => simp [Belgium.crawlSteps, hi, ho]
    | throwWrite =>
      cases hdest : Belgium.create_destination_file (env.docs i).title "txt" lang fs with
      | none =>
        have := ih (i + 1) fs recs (vis ++ [i]) h'
        simp only [Belgium.crawlSteps, hi, if_true, ho, hdest]
        simpa using this
      | some p => simp [Belgium.crawlSteps, hi, ho, hdest]
    | ok =>
      cases hdest : Belgium.create_destination_file (env.docs i).title "txt" lang fs with
      | none =>
        have := ih (i + 1) fs recs (vis ++ [i]) h'
        simp only [Belgium.crawlSteps, hi, if_true, ho, hdest]
        simpa using this
      | some p =>
        have := ih (i + 1) (fs ++ [p])
          (Belgium.append_to_metadata recs today (env.docs i).title
            Belgium.file_source_url p lang) (vis ++ [i]) h'
        simp only [Belgium.crawlSteps, hi, if_true, ho, hdest]
        simpa using this

/-- Claim C7 counterexample: the Belgium loop bound is fixed at the initial
link count (`range(0, len(all_links))`), while `all_links` is re-collected
each iteration.  On a listing that starts with 2 links but whose
re-collection returns only 1, iteration 1 subscripts a 1-element list at
index 1: the run raises `IndexError` instead of transitioning to Done. -/
theorem belgium_shrinking_listing_index_error :
    (Belgium.scrapeCategory
        ⟨fun _ => ⟨"a", "", "", .ok⟩, fun r => if r = 0 then 2 else 1⟩
        "french" "d" [] []).err = some .indexError := by
  decide

/-- Claim C7 (amended): the loop holds the range bound fixed at the initial
link count and never re-checks the index against the current collection;
only when every re-collection at round `i` still has more than `i` links
is the subscript in bounds, and then no `IndexError` is raised.  When a
re-collection comes back shorter, the subscript raises `IndexError` (see
the counterexample), rather than transitioning to Done. -/
theorem belgium_no_index_error_when_no_shrink (env : CrawlEnv)
    (lang today : String) (fs : List String) (recs : List DocumentRecord)
    (h : ∀ i, i < env.enumLen 0 → i < env.enumLen i) :
    (Belgium.scrapeCategory env lang today fs recs).err ≠ some .indexError := by
  apply belgium_no_index_error
  intro j h1 h2
  exact h j (by omega)

theorem belgium_no_index_error_when_no_shrink_witness :
    (∀ i, i < (⟨fun _ => ⟨"a", "", "", .ok⟩, fun _ => 2⟩ : CrawlEnv).enumLen 0 →
        i < (⟨fun _ => ⟨"a", "", "", .ok⟩, fun _ => 2⟩ : CrawlEnv).enumLen i) ∧
      (Belgium.scrapeCategory ⟨fun _ => ⟨"a", "", "", .ok⟩, fun _ => 2⟩
          "french" "d" [] []).err ≠ some .indexError :=
  ⟨fun _ h => h,
    belgium_no_index_error_when_no_shrink _ _ _ _ _ (fun _ h => h)⟩

/-!  Step equations for the two loops, one per control-flow branch.  -/

lemma belgium_step_oob (env : CrawlEnv) (lang today : String)
    (rem i : Nat) (fs : List String) (recs : List DocumentRecord) (vis : List Nat)
    (hg : ¬ i < env.enumLen i) :
    Belgium.crawlSteps env lang today (rem + 1) i fs recs vis =
      ⟨fs, recs, vis ++ [i], some .indexError⟩ := by
  simp [Belgium.crawlSteps, hg]

lemma belgium_step_extract (env : CrawlEnv) (lang today : String)
    (rem i : Nat) (fs : List String) (recs : List DocumentRecord) (vis : List Nat)
    (hg : i < env.enumLen i) (ho : (env.docs i).outcome = .throwExtract) :
    Belgium.crawlSteps env lang today (rem + 1) i fs recs vis =
      ⟨fs, recs, vis ++ [i], some .extractError⟩ := by
  simp [Belgium.crawlSteps, hg, ho]

lemma belgium_step_skip (env : CrawlEnv) (lang today : String)
    (rem i : Nat) (fs : List String) (recs : List DocumentRecord) (vis : List Nat)
    (hg : i < env.enumLen i) (ho : (env.docs i).outcome ≠ .throwExtract)
    (hdest : Belgium.create_destination_file (env.docs i).title "txt" lang fs = none) :
    Belgium.crawlSteps env lang today (rem + 1) i fs recs vis =
      Belgium.crawlSteps env lang today rem (i + 1) fs recs (vis ++ [i]) := by
  simp [Belgium.crawlSteps, hg, ho, hdest]

lemma belgium_step_write (env : CrawlEnv) (lang today : String)
    (rem i : Nat) (fs : List String) (recs : List DocumentRecord) (vis : List Nat)
    (p : String) (hg : i < env.enumLen i) (ho : (env.docs i).outcome = .throwWrite)
    (hdest : Belgium.create_destination_file (env.docs i).title "txt" lang fs = some p) :
    Belgium.crawlSteps env lang today (rem + 1) i fs recs vis =
      ⟨fs, recs, vis ++ [i], some .writeError⟩ := by
  simp [Belgium.crawlSteps, hg, ho, hdest]

lemma belgium_step_ok (env : CrawlEnv) (lang today : String)
    (rem i : Nat) (fs : List String) (recs : List DocumentRecord) (vis : List Nat)
    (p : String) (hg : i < env.enumLen i) (ho : (env.docs i).outcome = .ok)
    (hdest : Belgium.create_destination_file (env.docs i).title "txt" lang fs = some p) :
    Belgium.crawlSteps env lang today (rem + 1) i fs recs vis =
      Belgium.crawlSteps env lang today rem (i + 1) (fs ++ [p])
        (Belgium.append_to_metadata recs today (env.docs i).title
          Belgium.file_source_url p lang) (vis ++ [i]) := by
  simp [Belgium.crawlSteps, hg, ho, hdest]

lemma congo_step_extract (docs : Nat → Doc) (lang today : String)
    (rem i : Nat) (fs : List String) (recs : List DocumentRecord) (vis : List Nat)
    (ho : (docs i).outcome = .throwExtract) :
    Congo.crawlSteps docs lang today (rem + 1) i fs recs vis =
      Congo.crawlSteps docs lang today rem (i + 1) fs recs (vis ++ [i]) := by
  simp [Congo.crawlSteps, ho]

lemma congo_step_skip (docs : Nat → Doc) (lang today : String)
    (rem i : Nat) (fs : List String) (recs : List DocumentRecord) (vis : List Nat)
    (ho : (docs i).outcome ≠ .throwExtract)
    (hdest : Congo.create_destination_file (pySliceStr (docs i).text 300 550)
      (pySliceStr (docs i).text (-300) (-250)) "txt" lang fs = none) :
    Congo.crawlSteps docs lang today (rem + 1) i fs recs vis =
      Congo.crawlSteps docs lang today rem (i + 1) fs recs (vis ++ [i]) := by
  simp [Congo.crawlSteps, ho, hdest]

lemma congo_step_write (docs : Nat → Doc) (lang today : String)
    (rem i : Nat) (fs : List String) (recs : List DocumentRecord) (vis : List Nat)
    (p : String) (ho : (docs i).outcome = .throwWrite)
    (hdest : Congo.create_destination_file (pySliceStr (docs i).text 300 550)
      (pySliceStr (docs i).text (-300) (-250)) "txt" lang fs = some p) :
    Congo.crawlSteps docs lang today (rem + 1) i fs recs vis =
      Congo.crawlSteps docs lang today rem (i + 1) fs recs (vis ++ [i]) := by
  simp [Congo.crawlSteps, ho, hdest]

lemma congo_step_ok (docs : Nat → Doc) (lang today : String)
    (rem i : Nat) (fs : List String) (recs : List DocumentRecord) (vis : List Nat)
    (p : String) (ho : (docs i).outcome = .ok)
    (hdest : Congo.create_destination_file (pySliceStr (docs i).text 300 550)
      (pySliceStr (docs i).text (-300) (-250)) "txt" lang fs = some p) :
    Congo.crawlSteps docs lang today (rem + 1) i fs recs vis =
      Congo.crawlSteps docs lang today rem (i + 1) (fs ++ [p])
        (Congo.append_to_metadata recs today (pySliceStr (docs i).text 300 550)
          (docs i).url p lang) (vis ++ [i]) := by
  simp [Congo.crawlSteps, ho, hdest]

/-!  Fault isolation (claim C2).  -/

lemma congo_steps_resilient (docs : Nat → Doc) (lang today : String) :
    ∀ (rem i : Nat) (fs : List String) (recs : List DocumentRecord) (vis : List Nat),
      (Congo.crawlSteps docs lang today rem i fs recs vis).err = none ∧
        (Congo.crawlSteps docs lang today rem i fs recs vis).visited =
          vis ++ List.range' i rem ∧
        (Congo.crawlSteps docs lang today rem i fs recs vis).recs.length ≤
          recs.length +
            ((List.range' i rem).filter
              fun j => decide ((docs j).outcome = .ok)).length := by
  intro rem
  induction rem with
  | zero => intro i fs recs vis; simp [Congo.crawlSteps]
  | succ rem ih =>
    intro i fs recs vis
    cases ho : (docs i).outcome with
    | throwExtract =>
      obtain ⟨ih1, ih2, ih3⟩ := ih (i + 1) fs recs (vis ++ [i])
      rw [congo_step_extract docs lang today rem i fs recs vis ho]
      refine ⟨ih1, ?_, ?_⟩
      · rw [ih2, List.range'_succ]
        simp
      · rw [List.range'_succ, List.filter_cons]
        simp only [ho]
        simpa using ih3
    | throwWrite =>
      cases hdest : Congo.create_destination_file (pySliceStr (docs i).text 300 550)
          (pySliceStr (docs i).text (-300) (-250)) "txt" lang fs with
      | none =>
        obtain ⟨ih1, ih2, ih3⟩ := ih (i + 1) fs recs (vis ++ [i])
        rw [congo_step_skip docs lang today rem i fs recs vis (by simp [ho]) hdest]
        refine ⟨ih1, ?_, ?_⟩
        · rw [ih2, List.range'_succ]
          simp
        · rw [List.range'_succ, List.filter_cons]
          simp only [ho]
          simpa using ih3
      | some p =>
        obtain ⟨ih1, ih2, ih3⟩ := ih (i + 1) fs recs (vis ++ [i])
        rw [congo_step_write docs lang today rem i fs recs vis p ho hdest]
        refine ⟨ih1, ?_, ?_⟩
        · rw [ih2, List.range'_succ]
          simp
        · rw [List.range'_succ, List.filter_cons]
          simp only [ho]
          simpa using ih3
    | ok =>
      cases hdest : Congo.create_destination_file (pySliceStr (docs i).text 300 550)
          (pySliceStr (docs i).text (-300) (-250)) "txt" lang fs with
      | none =>
        obtain ⟨ih1, ih2, ih3⟩ := ih (i + 1) fs recs (vis ++ [i])
        rw [congo_step_skip docs lang today rem i fs recs vis (by simp [ho]) hdest]
        refine ⟨ih1, ?_, ?_⟩
        · rw [ih2, List.range'_succ]
          simp
        · rw [List.range'_succ, List.filter_cons]
          simp only [ho, decide_True, if_true, List.length_cons]
          omega
      | some p =>
        obtain ⟨ih1, ih2, ih3⟩ := ih (i + 1) (fs ++ [p])
          (Congo.append_to_metadata recs today (pySliceStr (docs i).text 300 550)
            (docs i).url p lang) (vis ++ [i])
        rw [congo_step_ok docs lang today rem i fs recs vis p ho hdest]
        refine ⟨ih1, ?_, ?_⟩
        · rw [ih2, List.range'_succ]
          simp
        · rw [List.range'_succ, List.filter_cons]
          simp only [ho, decide_True, if_true, List.length_cons,
            Congo.append_to_metadata]
          simp only [Congo.append_to_metadata, List.length_append,
            List.length_cons, List.length_nil] at ih3
          omega

/-- Claim C2 counterexample: the Belgium loop has no per-item exception
handling.  On a 3-link listing whose second document raises during
extraction, the run aborts with the exception: index 2 is never attempted,
refuting that items `i+1..n` are still attempted after a failure at `i`. -/
theorem belgium_item_exception_aborts_category :
    let env : CrawlEnv :=
      ⟨fun i => if i = 1 then ⟨"b", "", "", .throwExtract⟩
        else if i = 0 then ⟨"a", "", "", .ok⟩ else ⟨"c", "", "", .ok⟩,
        fun _ => 3⟩
    (Belgium.scrapeCategory env "french" "d" [] []).err =
        some .extractError ∧
      2 ∉ (Belgium.scrapeCategory env "french" "d" [] []).visited := by
  decide

/-- Claim C2 (amended): only the DRC scraper catches exceptions at item
granularity — its loop body sits in `try/except`, so for every listing the
loop finishes without an escaping exception, every index `0..n-1` is
attempted regardless of which items raise, and a raising item contributes
no ledger record (the record count is bounded by the number of
non-raising items).  The Belgium loop has no per-item handler, so an
unexpected exception aborts the whole category loop (see the
counterexample). -/
theorem congo_fault_isolation (docs : Nat → Doc) (today : String) (n : Nat)
    (fs0 : List String) :
    (Congo.scrapeLinks docs today n fs0 []).err = none ∧
      (Congo.scrapeLinks docs today n fs0 []).visited = List.range n ∧
      (Congo.scrapeLinks docs today n fs0 []).recs.length ≤
        ((List.range n).filter fun j => decide ((docs j).outcome = .ok)).length := by
  obtain ⟨h1, h2, h3⟩ :=
    congo_steps_resilient docs "french" today n 0 fs0 [] []
  refine ⟨h1, ?_, ?_⟩
  · simp only [Congo.scrapeLinks]
    rw [h2, List.range_eq_range']
    simp
  · simp only [Congo.scrapeLinks]
    rw [List.range_eq_range']
    simpa using h3

/-!  Existence checks and idempotence (claim C3).  -/

lemma belgium_create_none_iff (title ty lang : String) (fs : List String) :
    Belgium.create_destination_file title ty lang fs = none ↔
      Belgium.generate_file_name title ty lang ∈ fs := by
  simp only [Belgium.create_destination_file]
  split <;> simp_all

lemma belgium_create_some (title ty lang : String) (fs : List String) (p : String)
    (h : Belgium.create_destination_file title ty lang fs = some p) :
    p = Belgium.generate_file_name title ty lang ∧
      Belgium.generate_file_name title ty lang ∉ fs := by
  simp only [Belgium.create_destination_file] at h
  split at h <;> simp_all [eq_comm]

lemma congo_create_none_iff (name text ty lang : String) (fs : List String) :
    Congo.create_destination_file name text ty lang fs = none ↔
      Congo.filePath name text ty lang ∈ fs := by
  simp only [Congo.create_destination_file]
  split <;> simp_all

lemma congo_create_some (name text ty lang : String) (fs : List String) (p : String)
    (h : Congo.create_destination_file name text ty lang fs = some p) :
    p = Congo.filePath name text ty lang ∧
      Congo.filePath name text ty lang ∉ fs := by
  simp only [Congo.create_destination_file] at h
  split at h <;> simp_all [eq_comm]

lemma belgium_steps_idem (env : CrawlEnv) (lang today : String) :
    ∀ (rem i : Nat) (fs : List String) (recs : List DocumentRecord) (vis : List Nat),
      fs ⊆ (Belgium.crawlSteps env lang today rem i fs recs vis).fs ∧
        ∀ (recs2 : List DocumentRecord) (vis2 : List Nat),
          (Belgium.crawlSteps env lang today rem i
              (Belgium.crawlSteps env lang today rem i fs recs vis).fs
              recs2 vis2).fs =
            (Belgium.crawlSteps env lang today rem i fs recs vis).fs ∧
          (Belgium.crawlSteps env lang today rem i
              (Belgium.crawlSteps env lang today rem i fs recs vis).fs
              recs2 vis2).recs = recs2 := by
  intro rem
  induction rem with
  | zero =>
    intro i fs recs vis
    exact ⟨List.Subset.refl fs, fun recs2 vis2 => ⟨rfl, rfl⟩⟩
  | succ rem ih =>
    intro i fs recs vis
    by_cases hg : i < env.enumLen i
    · cases ho : (env.docs i).outcome with
      | throwExtract =>
        rw [belgium_step_extract env lang today rem i fs recs vis hg ho]
        refine ⟨List.Subset.refl fs, fun recs2 vis2 => ?_⟩
        dsimp only
        rw [belgium_step_extract env lang today rem i fs recs2 vis2 hg ho]
        exact ⟨rfl, rfl⟩
      | throwWrite =>
        cases hdest : Belgium.create_destination_file (env.docs i).title "txt" lang fs with
        | none =>
          rw [belgium_step_skip env lang today rem i fs recs vis hg
            (by simp [ho]) hdest]
          obtain ⟨hmono, hrun2⟩ := ih (i + 1) fs recs (vis ++ [i])
          refine ⟨hmono, fun recs2 vis2 => ?_⟩
          have hf : Belgium.generate_file_name (env.docs i).title "txt" lang ∈
              (Belgium.crawlSteps env lang today rem (i + 1) fs recs (vis ++ [i])).fs :=
            hmono ((belgium_create_none_iff _ _ _ _).mp hdest)
          rw [belgium_step_skip env lang today rem i _ recs2 vis2 hg
            (by simp [ho]) ((belgium_create_none_iff _ _ _ _).mpr hf)]
          exact hrun2 recs2 (vis2 ++ [i])
        | some p =>
          rw [belgium_step_write env lang today rem i fs recs vis p hg ho hdest]
          refine ⟨List.Subset.refl fs, fun recs2 vis2 => ?_⟩
          dsimp only
          rw [belgium_step_write env lang today rem i fs recs2 vis2 p hg ho hdest]
          exact ⟨rfl, rfl⟩
      | ok =>
        cases hdest : Belgium.create_destination_file (env.docs i).title "txt" lang fs with
        | none =>
          rw [belgium_step_skip env lang today rem i fs recs vis hg
            (by simp [ho]) hdest]
          obtain ⟨hmono, hrun2⟩ := ih (i + 1) fs recs (vis ++ [i])
          refine ⟨hmono, fun recs2 vis2 => ?_⟩
          have hf : Belgium.generate_file_name (env.docs i).title "txt" lang ∈
              (Belgium.crawlSteps env lang today rem (i + 1) fs recs (vis ++ [i])).fs :=
            hmono ((belgium_create_none_iff _ _ _ _).mp hdest)
          rw [belgium_step_skip env lang today rem i _ recs2 vis2 hg
            (by simp [ho]) ((belgium_create_none_iff _ _ _ _).mpr hf)]
          exact hrun2 recs2 (vis2 ++ [i])
        | some p =>
          rw [belgium_step_ok env lang today rem i fs recs vis p hg ho hdest]
          obtain ⟨hmono, hrun2⟩ := ih (i + 1) (fs ++ [p])
            (Belgium.append_to_metadata recs today (env.docs i).title
              Belgium.file_source_url p lang) (vis ++ [i])
          refine ⟨(List.subset_append_left fs [p]).trans hmono, fun recs2 vis2 => ?_⟩
          obtain ⟨hpf, _⟩ := belgium_create_some _ _ _ _ _ hdest
          have hf : Belgium.generate_file_name (env.docs i).title "txt" lang ∈
              (Belgium.crawlSteps env lang today rem (i + 1) (fs ++ [p])
                (Belgium.append_to_metadata recs today (env.docs i).title
                  Belgium.file_source_url p lang) (vis ++ [i])).fs := by
            apply hmono
            rw [← hpf]
            simp
          rw [belgium_step_skip env lang today rem i _ recs2 vis2 hg
            (by simp [ho]) ((belgium_create_none_iff _ _ _ _).mpr hf)]
          exact hrun2 recs2 (vis2 ++ [i])
    · rw [belgium_step_oob env lang today rem i fs recs vis hg]
      refine ⟨List.Subset.refl fs, fun recs2 vis2 => ?_⟩
      dsimp only
      rw [belgium_step_oob env lang today rem i fs recs2 vis2 hg]
      exact ⟨rfl, rfl⟩

lemma congo_steps_idem (docs : Nat → Doc) (lang today : String) :
    ∀ (rem i : Nat) (fs : List String) (recs : List DocumentRecord) (vis : List Nat),
      fs ⊆ (Congo.crawlSteps docs lang today rem i fs recs vis).fs ∧
        ∀ (recs2 : List DocumentRecord) (vis2 : List Nat),
          (Congo.crawlSteps docs lang today rem i
              (Congo.crawlSteps docs lang today rem i fs recs vis).fs
              recs2 vis2).fs =
            (Congo.crawlSteps docs lang today rem i fs recs vis).fs ∧
          (Congo.crawlSteps docs lang today rem i
              (Congo.crawlSteps docs lang today rem i fs recs vis).fs
              recs2 vis2).recs = recs2 := by
  intro rem
  induction rem with
  | zero =>
    intro i fs recs vis
    exact ⟨List.Subset.refl fs, fun recs2 vis2 => ⟨rfl, rfl⟩⟩
  | succ rem ih =>
    intro i fs recs vis
    cases ho : (docs i).outcome with
    | throwExtract =>
      rw [congo_step_extract docs lang today rem i fs recs vis ho]
      obtain ⟨hmono, hrun2⟩ := ih (i + 1) fs recs (vis ++ [i])
      refine ⟨hmono, fun recs2 vis2 => ?_⟩
      rw [congo_step_extract docs lang today rem i _ recs2 vis2 ho]
      exact hrun2 recs2 (vis2 ++ [i])
    | throwWrite =>
      cases hdest : Congo.create_destination_file (pySliceStr (docs i).text 300 550)
          (pySliceStr (docs i).text (-300) (-250)) "txt" lang fs with
      | none =>
        rw [congo_step_skip docs lang today rem i fs recs vis (by simp [ho]) hdest]
        obtain ⟨hmono, hrun2⟩ := ih (i + 1) fs recs (vis ++ [i])
        refine ⟨hmono, fun recs2 vis2 => ?_⟩
        have hf : Congo.filePath (pySliceStr (docs i).text 300 550)
            (pySliceStr (docs i).text (-300) (-250)) "txt" lang ∈
              (Congo.crawlSteps docs lang today rem (i + 1) fs recs (vis ++ [i])).fs :=
          hmono ((congo_create_none_iff _ _ _ _ _).mp hdest)
        rw [congo_step_skip docs lang today rem i _ recs2 vis2 (by simp [ho])
          ((congo_create_none_iff _ _ _ _ _).mpr hf)]
        exact hrun2 recs2 (vis2 ++ [i])
      | some p =>
        rw [congo_step_write docs lang today rem i fs recs vis p ho hdest]
        obtain ⟨hmono, hrun2⟩ := ih (i + 1) fs recs (vis ++ [i])
        refine ⟨hmono, fun recs2 vis2 => ?_⟩
        cases hdest2 : Congo.create_destination_file (pySliceStr (docs i).text 300 550)
            (pySliceStr (docs i).text (-300) (-250)) "txt" lang
            (Congo.crawlSteps docs lang today rem (i + 1) fs recs (vis ++ [i])).fs with
        | none =>
          rw [congo_step_skip docs lang today rem i _ recs2 vis2 (by simp [ho]) hdest2]
          exact hrun2 recs2 (vis2 ++ [i])
        | some q =>
          rw [congo_step_write docs lang today rem i _ recs2 vis2 q ho hdest2]
          exact hrun2 recs2 (vis2 ++ [i])
    | ok =>
      cases hdest : Congo.create_destination_file (pySliceStr (docs i).text 300 550)
          (pySliceStr (docs i).text (-300) (-250)) "txt" lang fs with
      | none =>
        rw [congo_step_skip docs lang today rem i fs recs vis (by simp [ho]) hdest]
        obtain ⟨hmono, hrun2⟩ := ih (i + 1) fs recs (vis ++ [i])
        refine ⟨hmono, fun recs2 vis2 => ?_⟩
        have hf : Congo.filePath (pySliceStr (docs i).text 300 550)
            (pySliceStr (docs i).text (-300) (-250)) "txt" lang ∈
              (Congo.crawlSteps docs lang today rem (i + 1) fs recs (vis ++ [i])).fs :=
          hmono ((congo_create_none_iff _ _ _ _ _).mp hdest)
        rw [congo_step_skip docs lang today rem i _ recs2 vis2 (by simp [ho])
          ((congo_create_none_iff _ _ _ _ _).mpr hf)]
        exact hrun2 recs2 (vis2 ++ [i])
      | some p =>
        rw [congo_step_ok docs lang today rem i fs recs vis p ho hdest]
        obtain ⟨hmono, hrun2⟩ := ih (i + 1) (fs ++ [p])
          (Congo.append_to_metadata recs today (pySliceStr (docs i).text 300 550)
            (docs i).url p lang) (vis ++ [i])
        refine ⟨(List.subset_append_left fs [p]).trans hmono, fun recs2 vis2 => ?_⟩
        obtain ⟨hpf, _⟩ := congo_create_some _ _ _ _ _ _ hdest
        have hf : Congo.filePath (pySliceStr (docs i).text 300 550)
            (pySliceStr (docs i).text (-300) (-250)) "txt" lang ∈
              (Congo.crawlSteps docs lang today rem (i + 1) (fs ++ [p])
                (Congo.append_to_metadata recs today (pySliceStr (docs i).text 300 550)
                  (docs i).url p lang) (vis ++ [i])).fs := by
          apply hmono
          rw [← hpf]
          simp
        rw [congo_step_skip docs lang today rem i _ recs2 vis2 (by simp [ho])
          ((congo_create_none_iff _ _ _ _ _).mpr hf)]
        exact hrun2 recs2 (vis2 ++ [i])

/-- Claim C3 (confirmed): a document whose resolved destination path already
exists is neither re-written nor re-recorded (`create_destination_file`
returns `None` in both scrapers), and consequently a second run of a
category crawl (Belgium) or of the DRC document loop against an unchanged
site and unchanged output directory adds no file and appends no ledger
record. -/
theorem crawl_idempotent :
    (∀ (title ty lang : String) (fs : List String),
        Belgium.generate_file_name title ty lang ∈ fs →
          Belgium.create_destination_file title ty lang fs = none) ∧
      (∀ (name text ty lang : String) (fs : List String),
          Congo.filePath name text ty lang ∈ fs →
            Congo.create_destination_file name text ty lang fs = none) ∧
      (∀ (env : CrawlEnv) (lang today : String) (fs0 : List String),
          (Belgium.scrapeCategory env lang today
              (Belgium.scrapeCategory env lang today fs0 []).fs []).fs =
            (Belgium.scrapeCategory env lang today fs0 []).fs ∧
          (Belgium.scrapeCategory env lang today
              (Belgium.scrapeCategory env lang today fs0 []).fs []).recs = []) ∧
      (∀ (docs : Nat → Doc) (today : String) (n : Nat) (fs0 : List String),
          (Congo.scrapeLinks docs today n
              (Congo.scrapeLinks docs today n fs0 []).fs []).fs =
            (Congo.scrapeLinks docs today n fs0 []).fs ∧
          (Congo.scrapeLinks docs today n
              (Congo.scrapeLinks docs today n fs0 []).fs []).recs = []) := by
  refine ⟨?_, ?_, ?_, ?_⟩
  · intro title ty lang fs h
    exact (belgium_create_none_iff _ _ _ _).mpr h
  · intro name text ty lang fs h
    exact (congo_create_none_iff _ _ _ _ _).mpr h
  · intro env lang today fs0
    exact (belgium_steps_idem env lang today (env.enumLen 0) 0 fs0 [] []).2 [] []
  · intro docs today n fs0
    exact (congo_steps_idem docs "french" today n 0 fs0 [] []).2 [] []

theorem crawl_idempotent_witness :
    Belgium.generate_file_name "Loi" "txt" "french" ∈
        [Belgium.generate_file_name "Loi" "txt" "french"] ∧
      Belgium.create_destination_file "Loi" "txt" "french"
          [Belgium.generate_file_name "Loi" "txt" "french"] = none ∧
      Congo.filePath "Loi" "texte" "txt" "french" ∈
          [Congo.filePath "Loi" "texte" "txt" "french"] ∧
      Congo.create_destination_file "Loi" "texte" "txt" "french"
          [Congo.filePath "Loi" "texte" "txt" "french"] = none :=
  ⟨List.mem_singleton.mpr rfl,
    crawl_idempotent.1 "Loi" "txt" "french" _ (List.mem_singleton.mpr rfl),
    List.mem_singleton.mpr rfl,
    crawl_idempotent.2.1 "Loi" "texte" "txt" "french" _ (List.mem_singleton.mpr rfl)⟩

/-!  Ledger/disk correspondence (claim C9).  -/

lemma belgium_steps_ledger (env : CrawlEnv) (lang today : String) :
    ∀ (rem i : Nat) (fs : List String) (recs : List DocumentRecord) (vis : List Nat),
      (∀ r ∈ recs, r.download_path ∈ fs) →
      ∀ r ∈ (Belgium.crawlSteps env lang today rem i fs recs vis).recs,
        r.download_path ∈ (Belgium.crawlSteps env lang today rem i fs recs vis).fs := by
  intro rem
  induction rem with
  | zero => intro i fs recs vis h; exact h
  | succ rem ih =>
    intro i fs recs vis h
    by_cases hg : i < env.enumLen i
    · cases ho : (env.docs i).outcome with
      | throwExtract =>
        rw [belgium_step_extract env lang today rem i fs recs vis hg ho]
        exact h
      | throwWrite =>
        cases hdest : Belgium.create_destination_file (env.docs i).title "txt" lang fs with
        | none =>
          rw [belgium_step_skip env lang today rem i fs recs vis hg (by simp [ho]) hdest]
          exact ih (i + 1) fs recs (vis ++ [i]) h
        | some p =>
          rw [belgium_step_write env lang today rem i fs recs vis p hg ho hdest]
          exact h
      | ok =>
        cases hdest : Belgium.create_destination_file (env.docs i).title "txt" lang fs with
        | none =>
          rw [belgium_step_skip env lang today rem i fs recs vis hg (by simp [ho]) hdest]
          exact ih (i + 1) fs recs (vis ++ [i]) h
        | some p =>
          rw [belgium_step_ok env lang today rem i fs recs vis p hg ho hdest]
          apply ih
          intro r hr
          rcases List.mem_append.mp hr with hr | hr
          · exact List.mem_append_left _ (h r hr)
          · simp only [List.mem_singleton] at hr
            subst hr
            simp [Belgium.append_to_metadata]
    · rw [belgium_step_oob env lang today rem i fs recs vis hg]
      exact h

lemma congo_steps_ledger (docs : Nat → Doc) (lang today : String) :
    ∀ (rem i : Nat) (fs : List String) (recs : List DocumentRecord) (vis : List Nat),
      (∀ r ∈ recs, r.download_path ∈ fs) →
      ∀ r ∈ (Congo.crawlSteps docs lang today rem i fs recs vis).recs,
        r.download_path ∈ (Congo.crawlSteps docs lang today rem i fs recs vis).fs := by
  intro rem
  induction rem with
  | zero => intro i fs recs vis h; exact h
  | succ rem ih =>
    intro i fs recs vis h
    cases ho : (docs i).outcome with
    | throwExtract =>
      rw [congo_step_extract docs lang today rem i fs recs vis ho]
      exact ih (i + 1) fs recs (vis ++ [i]) h
    | throwWrite =>
      cases hdest : Congo.create_destination_file (pySliceStr (docs i).text 300 550)
          (pySliceStr (docs i).text (-300) (-250)) "txt" lang fs with
      | none =>
        rw [congo_step_skip docs lang today rem i fs recs vis (by simp [ho]) hdest]
        exact ih (i + 1) fs recs (vis ++ [i]) h
      | some p =>
        rw [congo_step_write docs lang today rem i fs recs vis p ho hdest]
        exact ih (i + 1) fs recs (vis ++ [i]) h
    | ok =>
      cases hdest : Congo.create_destination_file (pySliceStr (docs i).text 300 550)
          (pySliceStr (docs i).text (-300) (-250)) "txt" lang fs with
      | none =>
        rw [congo_step_skip docs lang today rem i fs recs vis (by simp [ho]) hdest]
        exact ih (i + 1) fs recs (vis ++ [i]) h
      | some p =>
        rw [congo_step_ok docs lang today rem i fs recs vis p ho hdest]
        apply ih
        intro r hr
        rcases List.mem_append.mp hr with hr | hr
        · exact List.mem_append_left _ (h r hr)
        · simp only [List.mem_singleton] at hr
          subst hr
          simp [Congo.append_to_metadata]

lemma belgium_driver_ledger (env : Belgium.DriverEnv) (today : String) :
    ∀ (langs : List String) (acc : Belgium.DriverResult),
      (∀ r ∈ acc.recs, r.download_path ∈ acc.fs) →
      ∀ r ∈ (Belgium.driverGo env today langs acc).recs,
        r.download_path ∈ (Belgium.driverGo env today langs acc).fs := by
  intro langs
  induction langs with
  | nil => intro acc h; simpa [Belgium.driverGo] using h
  | cons l ls ih =>
    intro acc h
    by_cases hfind : env.findLang l
    · have hcat : ∀ r ∈ (Belgium.scrapeCategory (env.crawl l) l today acc.fs acc.recs).recs,
          r.download_path ∈
            (Belgium.scrapeCategory (env.crawl l) l today acc.fs acc.recs).fs :=
        belgium_steps_ledger (env.crawl l) l today
          ((env.crawl l).enumLen 0) 0 acc.fs acc.recs [] h
      simp only [Belgium.driverGo, hfind, if_true]
      cases hres : (Belgium.scrapeCategory (env.crawl l) l today acc.fs acc.recs).err with
      | some e => exact hcat
      | none => exact ih _ hcat
    · simp only [Belgium.driverGo, hfind]
      exact h

/-- Claim C9 (confirmed): in both scrapers a ledger record is appended only
in the branch in which the destination file has just been written (the
write precedes the append, and any exception in between prevents the
append), so at every flush point — after each completed language loop in
Belgium, after the document loop in the DRC scraper — every record's
`download_path` is a path that exists on disk.  Formally: if every record
already in the ledger refers to an existing path, then after the run every
record in the ledger refers to a path in the resulting filesystem. -/
theorem ledger_paths_on_disk :
    (∀ (env : Belgium.DriverEnv) (today : String) (langs : List String)
        (acc : Belgium.DriverResult),
        (∀ r ∈ acc.recs, r.download_path ∈ acc.fs) →
        ∀ r ∈ (Belgium.driverGo env today langs acc).recs,
          r.download_path ∈ (Belgium.driverGo env today langs acc).fs) ∧
      (∀ (docs : Nat → Doc) (today : String) (n : Nat) (fs0 : List String)
          (recs0 : List DocumentRecord),
          (∀ r ∈ recs0, r.download_path ∈ fs0) →
          ∀ r ∈ (Congo.scrapeLinks docs today n fs0 recs0).recs,
            r.download_path ∈ (Congo.scrapeLinks docs today n fs0 recs0).fs) :=
  ⟨fun env today langs acc h => belgium_driver_ledger env today langs acc h,
    fun docs today n fs0 recs0 h =>
      congo_steps_ledger docs "french" today n 0 fs0 recs0 [] h⟩

theorem ledger_paths_on_disk_witness :
    (∀ r ∈ (⟨[], 0, [], [], none⟩ : Belgium.DriverResult).recs,
        r.download_path ∈ (⟨[], 0, [], [], none⟩ : Belgium.DriverResult).fs) ∧
      (∀ r ∈ (Belgium.driverGo
            ⟨fun _ => true, fun _ => ⟨fun _ => ⟨"Loi", "", "", .ok⟩, fun _ => 1⟩⟩
            "2021-12-10" ["french"] ⟨[], 0, [], [], none⟩).recs,
          r.download_path ∈ (Belgium.driverGo
            ⟨fun _ => true, fun _ => ⟨fun _ => ⟨"Loi", "", "", .ok⟩, fun _ => 1⟩⟩
            "2021-12-10" ["french"] ⟨[], 0, [], [], none⟩).fs) ∧
      (∀ r ∈ (Congo.scrapeLinks (fun _ => ⟨"", "texte", "u", .ok⟩)
            "2021-12-13" 1 [] []).recs,
        r.download_path ∈ (Congo.scrapeLinks (fun _ => ⟨"", "texte", "u", .ok⟩)
            "2021-12-13" 1 [] []).fs) := by
  refine ⟨by simp, ?_, ?_⟩
  · exact ledger_paths_on_disk.1 _ "2021-12-10" ["french"] _ (by simp)
  · exact ledger_paths_on_disk.2 _ "2021-12-13" 1 [] [] (by simp)

/-!  Fallback identity of the DRC scraper (claims C8, C10).  -/

set_option maxRecDepth 4000 in
/-- Claim C8 counterexample: for a page text of 550 identical word
characters, the title slice `[300:550]` normalizes to 250 characters and
is truncated to 200, the trailing slice `[-300:-250]` to 50; their
concatenation — the fallback-derived identifier that ends up in the file
path — has length 250, not at most 200, refuting that the
fallback-derived identifier is truncated to 200 characters. -/
theorem congo_identifier_not_truncated_to_200 :
    (Congo.titlePart (pySliceStr ⟨List.replicate 550 'a'⟩ 300 550) ++
        Congo.textPart (pySliceStr ⟨List.replicate 550 'a'⟩ (-300) (-250))).length =
      250 ∧
      ¬ ((Congo.titlePart (pySliceStr ⟨List.replicate 550 'a'⟩ 300 550) ++
          Congo.textPart (pySliceStr ⟨List.replicate 550 'a'⟩ (-300) (-250))).length ≤
        200) := by
  decide

/-- Claim C8 (amended): when no reliable title exists, the identity is the
concatenation of the normalized fixed-offset slice `[300:550]` of the body
text, truncated to 200 characters, with the normalized trailing slice
`[-300:-250]`, truncated to 50 characters; the combined fallback-derived
identifier is therefore bounded by 250 characters, not by 200. -/
theorem congo_fallback_identifier_shape (text ty lang : String)
    (fs : List String) (p : String)
    (h : Congo.create_destination_file (pySliceStr text 300 550)
      (pySliceStr text (-300) (-250)) ty lang fs = some p) :
    p = Congo.filePath (pySliceStr text 300 550) (pySliceStr text (-300) (-250))
        ty lang ∧
      (Congo.titlePart (pySliceStr text 300 550) ++
        Congo.textPart (pySliceStr text (-300) (-250))).length ≤ 250 := by
  refine ⟨(congo_create_some _ _ _ _ _ _ h).1, ?_⟩
  rw [String.length_append]
  have h1 : (Congo.titlePart (pySliceStr text 300 550)).length ≤ 200 := by
    show ((pyLower (hyphenate (collapseNonWord
      (pySliceStr text 300 550).data))).take 200).length ≤ 200
    rw [List.length_take]
    omega
  have h2 : (Congo.textPart (pySliceStr text (-300) (-250))).length ≤ 50 := by
    show ((pyLower (hyphenate (collapseNonWord
      (pySliceStr text (-300) (-250)).data))).take 50).length ≤ 50
    rw [List.length_take]
    omega
  omega

theorem congo_fallback_identifier_shape_witness :
    Congo.create_destination_file (pySliceStr ⟨List.replicate 550 'a'⟩ 300 550)
        (pySliceStr ⟨List.replicate 550 'a'⟩ (-300) (-250)) "txt" "french" [] =
      some (Congo.filePath (pySliceStr ⟨List.replicate 550 'a'⟩ 300 550)
        (pySliceStr ⟨List.replicate 550 'a'⟩ (-300) (-250)) "txt" "french") ∧
      (Congo.filePath (pySliceStr ⟨List.replicate 550 'a'⟩ 300 550)
          (pySliceStr ⟨List.replicate 550 'a'⟩ (-300) (-250)) "txt" "french" =
        Congo.filePath (pySliceStr ⟨List.replicate 550 'a'⟩ 300 550)
          (pySliceStr ⟨List.replicate 550 'a'⟩ (-300) (-250)) "txt" "french" ∧
        (Congo.titlePart (pySliceStr ⟨List.replicate 550 'a'⟩ 300 550) ++
          Congo.textPart (pySliceStr ⟨List.replicate 550 'a'⟩ (-300) (-250))).length ≤
          250) := by
  have h : Congo.create_destination_file (pySliceStr ⟨List.replicate 550 'a'⟩ 300 550)
      (pySliceStr ⟨List.replicate 550 'a'⟩ (-300) (-250)) "txt" "french" [] =
        some (Congo.filePath (pySliceStr ⟨List.replicate 550 'a'⟩ 300 550)
          (pySliceStr ⟨List.replicate 550 'a'⟩ (-300) (-250)) "txt" "french") := by
    rw [Congo.create_destination_file, if_neg (List.not_mem_nil _)]
  exact ⟨h, congo_fallback_identifier_shape _ "txt" "french" [] _ h⟩

lemma pySlice_high_empty (l : List Char) (h : l.length ≤ 250) :
    pySlice l 300 550 = [] := by
  unfold pySlice pyBound
  rw [if_neg (by decide), if_neg (by decide)]
  have e550 : (550 : Int).toNat = 550 := rfl
  have e300 : (300 : Int).toNat = 300 := rfl
  rw [e550, e300, Nat.min_eq_left (by omega), Nat.min_eq_left (by omega),
    List.take_length, List.drop_length]

lemma pySlice_neg_empty (l : List Char) (h : l.length ≤ 250) :
    pySlice l (-300) (-250) = [] := by
  unfold pySlice pyBound
  rw [if_pos (by decide), if_pos (by decide)]
  have e250 : (-(-250 : Int)).toNat = 250 := rfl
  have e300 : (-(-300 : Int)).toNat = 300 := rfl
  rw [e250, e300, Nat.min_eq_left (by omega), Nat.min_eq_left (by omega),
    Nat.sub_self]
  simp

/-- For a body text of at most 250 characters, the fallback path collapses
to the constant `./data/DRC/french/txt/.txt`. -/
lemma congo_short_path (s : String) (h : s.length ≤ 250) :
    Congo.filePath (pySliceStr s 300 550) (pySliceStr s (-300) (-250))
        "txt" "french" =
      "./data/DRC/french/txt/.txt" := by
  unfold pySliceStr
  rw [pySlice_high_empty s.data h, pySlice_neg_empty s.data h]
  decide

lemma congo_short_docs_skip (docs : Nat → Doc) (today : String) :
    ∀ (rem i : Nat) (fs : List String) (recs : List DocumentRecord) (vis : List Nat),
      (∀ j, i ≤ j → j < i + rem →
        (docs j).text.length ≤ 250 ∧ (docs j).outcome = .ok) →
      "./data/DRC/french/txt/.txt" ∈ fs →
      (Congo.crawlSteps docs "french" today rem i fs recs vis).fs = fs ∧
        (Congo.crawlSteps docs "french" today rem i fs recs vis).recs = recs := by
  intro rem
  induction rem with
  | zero => intro i fs recs vis _ _; exact ⟨rfl, rfl⟩
  | succ rem ih =>
    intro i fs recs vis h hmem
    obtain ⟨hshort, hok⟩ := h i (Nat.le_refl i) (by omega)
    have hdest : Congo.create_destination_file (pySliceStr (docs i).text 300 550)
        (pySliceStr (docs i).text (-300) (-250)) "txt" "french" fs = none := by
      apply (congo_create_none_iff _ _ _ _ _).mpr
      rw [congo_short_path _ hshort]
      exact hmem
    rw [congo_step_skip docs "french" today rem i fs recs vis (by simp [hok]) hdest]
    exact ih (i + 1) fs recs (vis ++ [i])
      (fun j h1 h2 => h j (by omega) (by omega)) hmem

/-- Claim C10 (confirmed): for every extracted body text of at most 250
characters both fallback slices are empty, so every short document
resolves to the constant path `./data/DRC/french/txt/.txt`; in a DRC
document loop in which all documents are short (and none raises), only
the first document is written and recorded — all later short documents
hit the existence check and get neither a file nor a ledger record. -/
theorem congo_short_texts_collapse :
    (∀ s : String, s.length ≤ 250 →
        pySliceStr s 300 550 = "" ∧ pySliceStr s (-300) (-250) = "") ∧
      (∀ (docs : Nat → Doc) (today : String) (n : Nat) (fs0 : List String),
        (∀ i, i < n → (docs i).text.length ≤ 250 ∧ (docs i).outcome = .ok) →
        "./data/DRC/french/txt/.txt" ∉ fs0 → 1 ≤ n →
        (Congo.scrapeLinks docs today n fs0 []).fs =
            fs0 ++ ["./data/DRC/french/txt/.txt"] ∧
          (Congo.scrapeLinks docs today n fs0 []).recs =
            [⟨"", (docs 0).url, "./data/DRC/french/txt/.txt", today,
              "french", "DRC"⟩]) := by
  constructor
  · intro s h
    constructor
    · show (⟨pySlice s.data 300 550⟩ : String) = ""
      rw [pySlice_high_empty s.data h]
    · show (⟨pySlice s.data (-300) (-250)⟩ : String) = ""
      rw [pySlice_neg_empty s.data h]
  · intro docs today n fs0 h hnot hn
    obtain ⟨m, rfl⟩ : ∃ m, n = m + 1 := ⟨n - 1, by omega⟩
    obtain ⟨hshort, hok⟩ := h 0 (by omega)
    have hfp : Congo.filePath (pySliceStr (docs 0).text 300 550)
        (pySliceStr (docs 0).text (-300) (-250)) "txt" "french" =
          "./data/DRC/french/txt/.txt" := congo_short_path _ hshort
    have hdest : Congo.create_destination_file (pySliceStr (docs 0).text 300 550)
        (pySliceStr (docs 0).text (-300) (-250)) "txt" "french" fs0 =
          some "./data/DRC/french/txt/.txt" := by
      rw [Congo.create_destination_file, hfp, if_neg hnot]
    have hstep := congo_step_ok docs "french" today m 0 fs0 [] []
      "./data/DRC/french/txt/.txt" hok hdest
    have hskip := congo_short_docs_skip docs today m 1
      (fs0 ++ ["./data/DRC/french/txt/.txt"])
      (Congo.append_to_metadata [] today (pySliceStr (docs 0).text 300 550)
        (docs 0).url "./data/DRC/french/txt/.txt" "french") [0]
      (fun j h1 h2 => h j (by omega)) (by simp)
    have htitle : pySliceStr (docs 0).text 300 550 = "" := by
      show (⟨pySlice (docs 0).text.data 300 550⟩ : String) = ""
      rw [pySlice_high_empty _ hshort]
    constructor
    · show (Congo.crawlSteps docs "french" today (m + 1) 0 fs0 [] []).fs = _
      rw [hstep]
      exact hskip.1
    · show (Congo.crawlSteps docs "french" today (m + 1) 0 fs0 [] []).recs = _
      rw [hstep]
      exact hskip.2.trans
        (by rw [htitle]; simp [Congo.append_to_metadata, Congo.COUNTRY])

theorem congo_short_texts_collapse_witness :
    ("abc".length ≤ 250 ∧
        pySliceStr "abc" 300 550 = "" ∧ pySliceStr "abc" (-300) (-250) = "") ∧
      ((∀ i, i < 2 →
          ((fun _ => (⟨"", "abc", "u", .ok⟩ : Doc)) i).text.length ≤ 250 ∧
            ((fun _ => (⟨"", "abc", "u", .ok⟩ : Doc)) i).outcome = .ok) ∧
        "./data/DRC/french/txt/.txt" ∉ ([] : List String) ∧ 1 ≤ 2 ∧
        (Congo.scrapeLinks (fun _ => ⟨"", "abc", "u", .ok⟩) "2021-12-13" 2 [] []).fs =
            [] ++ ["./data/DRC/french/txt/.txt"] ∧
          (Congo.scrapeLinks (fun _ => ⟨"", "abc", "u", .ok⟩) "2021-12-13" 2 [] []).recs =
            [⟨"", "u", "./data/DRC/french/txt/.txt", "2021-12-13",
              "french", "DRC"⟩]) := by
  have hdocs : ∀ i, i < 2 →
      ((fun _ => (⟨"", "abc", "u", .ok⟩ : Doc)) i).text.length ≤ 250 ∧
        ((fun _ => (⟨"", "abc", "u", .ok⟩ : Doc)) i).outcome = .ok :=
    fun i _ => ⟨by show ("abc" : String).length ≤ 250; decide, rfl⟩
  refine ⟨⟨by decide, congo_short_texts_collapse.1 "abc" (by decide)⟩,
    hdocs, by decide, by decide, ?_⟩
  exact congo_short_texts_collapse.2 (fun _ => ⟨"", "abc", "u", .ok⟩)
    "2021-12-13" 2 [] hdocs (by decide) (by decide)

end Scrapers
